import Mathlib

/-!
Verification of the command-menu composition engine
(`src/modules/@apostrophecms/command-menu/index.js`).

The development shallowly embeds the JavaScript module: JS values are the
inductive `JsValue`; JS objects are insertion-ordered association lists
(`List (String × _)`) with `jsSet`/`jsGet` mirroring property assignment and
lookup; exceptions are `Except String`.  Each definition is translated from
the source function named in its doc comment.
-/

set_option autoImplicit false

/-- Model of a JavaScript value, covering the shapes this module manipulates.
Numbers are integers (no floating point arithmetic occurs in the module). -/
inductive JsValue where
  | str (s : String)
  | num (n : Int)
  | bool (b : Bool)
  | null
  | undefined
  | obj (entries : List (String × JsValue))
  | arr (elems : List JsValue)

/-- A JavaScript object: insertion-ordered key/value entries. -/
abbrev JsObj := List (String × JsValue)

/-- JavaScript `typeof`.  Note `typeof null == "object"`, a JS quirk the
validator inherits. -/
def jsTypeof : JsValue → String
  | .str _ => "string"
  | .num _ => "number"
  | .bool _ => "boolean"
  | .null => "object"
  | .undefined => "undefined"
  | .obj _ => "object"
  | .arr _ => "object"

/-- JavaScript truthiness.  The falsy values are `""`, `0`, `false`, `null`
and `undefined`; every object and array (even empty) is truthy. -/
def jsTruthy : JsValue → Bool
  | .str s => decide (s ≠ "")
  | .num n => decide (n ≠ 0)
  | .bool b => b
  | .null => false
  | .undefined => false
  | .obj _ => true
  | .arr _ => true

/-- Strict equality (`===`) of a JS value against a string literal: only a
string with the same characters compares equal. -/
def jsIsStrEq (v : JsValue) (s : String) : Bool :=
  match v with
  | .str t => t == s
  | _ => false

/-- JavaScript `ToPropertyKey` / `String(v)` for the value kinds that can reach
a computed object key in this module.  Scalar cases are exact; a non-empty
array is approximated by `""` (JS would join its stringified elements with
commas — no claim builds a key from a non-empty array). -/
def jsToPropKey : JsValue → String
  | .str s => s
  | .num n => toString n
  | .bool b => if b then "true" else "false"
  | .null => "null"
  | .undefined => "undefined"
  | .obj _ => "[object Object]"
  | .arr _ => ""

/-- Property lookup on an ordered object: value of the first entry with the
given key (JS objects have unique keys, so first = only). -/
def jsGet {α : Type} (m : List (String × α)) (k : String) : Option α :=
  match m with
  | [] => none
  | p :: rest => if p.1 = k then some p.2 else jsGet rest k

/-- Property lookup with a default, modelling `o.k` evaluating to `undefined`
(or another given default) when the key is absent. -/
def jsGetD {α : Type} (m : List (String × α)) (k : String) (d : α) : α :=
  (jsGet m k).getD d

/-- Property assignment `o[k] = v` (also object-spread overwrite): replaces the
value in place if the key exists, otherwise appends the entry. -/
def jsSet {α : Type} (m : List (String × α)) (k : String) (v : α) : List (String × α) :=
  match m with
  | [] => [(k, v)]
  | p :: rest => if p.1 = k then (k, v) :: rest else p :: jsSet rest k v

/-- Property access `v.k` on an arbitrary JS value: object lookup, `undefined`
otherwise (no claim reads properties of strings or arrays). -/
def jsProp (v : JsValue) (k : String) : JsValue :=
  match v with
  | .obj es => jsGetD es k .undefined
  | _ => .undefined

/-- `Array.prototype.includes(key)` where `key` is a string: SameValueZero
comparison, so only a `str` element can match. -/
def jsIncludes (l : List JsValue) (k : String) : Bool :=
  l.any (fun v => jsIsStrEq v k)

/-- A single command as composed by the module.  Absent attributes are
`undefined`, matching JS property access on a plain object. -/
structure Command where
  type : JsValue
  label : JsValue
  action : JsValue
  permission : JsValue
  modal : JsValue
  shortcut : JsValue

/-- A raw fragment contributed by one module chain entry
(`{ add?, remove?, group? }`, §3 of the spec); `none` models an absent
property (`undefined`). -/
structure Fragment where
  add : Option (List (String × Command))
  remove : Option (List JsValue)
  group : Option (List (String × JsObj))

/-- The accumulator threaded through the `pipe` of composition stages
(source line 55).  `modal` is never written because `composeModal` is not in
the pipe, so reading `composed.modal` yields `undefined`. -/
structure PipeState where
  rawCommands : List Fragment
  command : List (String × Command)
  remove : List JsValue
  group : List (String × JsObj)
  modal : JsValue

/-- The module's process-wide registry state (`self.removes`, `self.commands`,
`self.groups`, `self.modals`, set in `init` and in the `apostrophe:ready`
handler). -/
structure ModuleState where
  rawCommands : List Fragment
  removes : List JsValue
  commands : List (String × Command)
  groups : List (String × JsObj)
  modals : JsValue

/-- Stage `composeCommand` (source lines 132-148): concatenate the fragments'
`add` objects (dropping absent ones, as `.filter(Boolean)` does) and fold them
into one object by spread, so a later entry with the same name fully
overwrites an earlier one. -/
def composeCommandTable (frags : List Fragment) : List (String × Command) :=
  (frags.filterMap Fragment.add).foldl
    (fun acc es => es.foldl (fun a p => jsSet a p.1 p.2) acc) []

/-- Stage `composeRemove` (source lines 98-107): concatenate every fragment's
`remove` sequence; an absent `remove` contributes the single element
`undefined` (`[].concat(undefined)`), which the truthiness filter then drops
along with any falsy name. -/
def composeRemoveList (frags : List Fragment) : List JsValue :=
  (frags.flatMap (fun f =>
    match f.remove with
    | some l => l
    | none => [JsValue.undefined])).filter (fun v => jsTruthy v)

/-- One step of the `formatGroups` reduce (source lines 109-123): for a group
entry `(name, attributes)`, the accumulated map gets
`{...attributes, fields: (groups[name]?.fields || []).concat(attributes.fields)}`
at `name`. -/
def prevFieldsList (o : Option JsObj) : List JsValue :=
  match o with
  | none => []
  | some g =>
    match jsGetD g "fields" .undefined with
    | .arr xs => xs
    | _ => []

/-- `Array.prototype.concat` with one argument, as used on the accumulated
fields array: an array argument is flattened one level, any other value is
appended as a single element (so an absent `fields` appends `undefined`). -/
def concatArg (v : JsValue) : List JsValue :=
  match v with
  | .arr xs => xs
  | x => [x]

/-- The body of the inner reduce of `formatGroups` (source lines 110-122).
In this fold the accumulated value at a key always carries an array `fields`
(it is built by this very step), so `prevFieldsList` returning `[]` for a
non-array only realises the `|| []` fallback for the falsy cases that can
actually occur. -/
def entryStep (st : List (String × JsObj)) (p : String × JsObj) : List (String × JsObj) :=
  jsSet st p.1
    (jsSet p.2 "fields"
      (.arr (prevFieldsList (jsGet st p.1) ++ concatArg (jsGetD p.2 "fields" .undefined))))

/-- Message of the TypeError raised by `Object.entries(undefined)` when a
fragment has no `group` property (source line 110). -/
def objectEntriesErrMsg : String := "TypeError: Cannot convert undefined or null to object"

/-- Stage `composeGroup` (source lines 108-131): reduce `formatGroups` over the
fragments starting from `{}`.  A fragment without a `group` property makes
`Object.entries(group)` throw. -/
def composeGroupTable (frags : List Fragment) : Except String (List (String × JsObj)) :=
  frags.foldlM
    (fun st f =>
      match f.group with
      | none => .error objectEntriesErrMsg
      | some es => .ok (es.foldl entryStep st))
    []

/-- The `pipe(composeCommand, composeRemove, composeGroup)` applied to
`{ rawCommands }` (source line 55): stages run left to right; only the group
stage can throw; `modal` is never assigned. -/
def pipeline (frags : List Fragment) : Except String PipeState :=
  match composeGroupTable frags with
  | .error e => .error e
  | .ok g => .ok ⟨frags, composeCommandTable frags, composeRemoveList frags, g, .undefined⟩

/-- `assert.*` modelled as `Except`: ok when the condition holds, otherwise the
error message is thrown. -/
def assertOkB (b : Bool) (msg : String) : Except String Unit :=
  if b then .ok () else .error msg

/-- `validateCommand` (source lines 74-90).  `assert.equal` returns
`undefined`, so in the source the `&&`-chained asserts after the first of each
chain never execute: the checks of `action.type`, `action.payload`,
`permission.action` and `permission.type` are dead code and are therefore
absent from this translation. -/
def validateCommand (name : String) (c : Command) : Except String Bool := do
  assertOkB (jsIsStrEq c.type "item")
    ("Invalid command type, must be \"item\", for " ++ name)
  assertOkB (jsTypeof c.label == "string")
    ("Invalid command label, must be a string, for " ++ name)
  assertOkB (jsTypeof c.action == "object")
    ("Invalid command action, must be an object for " ++ name)
  (if jsTruthy c.permission then
    assertOkB (jsTypeof c.permission == "object")
      ("Invalid command permission for " ++ name)
   else pure ())
  (if jsTruthy c.modal then
    assertOkB (jsTypeof c.modal == "string")
      ("Invalid command modal for " ++ name)
   else pure ())
  assertOkB (jsTypeof c.shortcut == "string")
    ("Invalid command shortcut, must be a string, for " ++ name)
  pure true

/-- `validateGroup` (source lines 91-97). -/
def validateGroup (name : String) (g : JsObj) : Except String Bool := do
  assertOkB (jsTypeof (jsGetD g "label" .undefined) == "string")
    ("Invalid group label, must be a string, for " ++ name)
  assertOkB (match jsGetD g "fields" .undefined with | .arr _ => true | _ => false)
    ("Invalid command fields, must be an array for " ++ name)
  assertOkB (match jsGetD g "fields" .undefined with
             | .arr xs => xs.all (fun x => jsTypeof x == "string")
             | _ => false)
    ("Invalid command fields, must contains strings, for " ++ name)
  pure true

/-- `Object.entries(composed.command).some(validateCommand)` (source line 57):
`validateCommand` either throws or returns `true`, and `some` stops at the
first truthy result — so only the FIRST command (if any) is ever validated. -/
def validateFirstCommand (l : List (String × Command)) : Except String Unit :=
  match l with
  | [] => .ok ()
  | p :: _ => (validateCommand p.1 p.2).map (fun _ => ())

/-- `Object.entries(composed.group).some(validateGroup)` (source line 58):
as with commands, only the first group is examined. -/
def validateFirstGroup (l : List (String × JsObj)) : Except String Unit :=
  match l with
  | [] => .ok ()
  | p :: _ => (validateGroup p.1 p.2).map (fun _ => ())

/-- The two validation statements inside the `try` block (source lines 57-58). -/
def validateStep (s : PipeState) : Except String Unit := do
  validateFirstCommand s.command
  validateFirstGroup s.group

/-- The `composeCommands` handler of `apostrophe:ready` (source lines 48-68),
with the collected fragments as input.  The state is cleared before the pipe
runs; a pipe exception escapes the handler (it is raised before the `try`),
while a validation exception is caught and logged, leaving the cleared state
(`modals` cleared to the empty object `{}`).  On success all five fields are
assigned from the composed result — including `modals := composed.modal`,
which is `undefined` because the pipe has no modal stage. -/
def composeCommands (frags : List Fragment) : Except String ModuleState :=
  match pipeline frags with
  | .error e => .error e
  | .ok composed =>
    match validateStep composed with
    | .error _ => .ok ⟨frags, [], [], [], .obj []⟩
    | .ok _ => .ok ⟨frags, composed.remove, composed.command, composed.group, composed.modal⟩

/-- A request, reduced to what the module reads from it: `req.user` (its
truthiness decides anonymity) — the permission service receives the whole
request, which the oracle abstracts. -/
structure Req where
  user : JsValue

/-- The permission oracle `self.apos.permissions.can(req, action, type, mode)`,
consumed as an opaque boolean predicate (spec §1, out of scope). -/
abbrev CanFn := Req → JsValue → JsValue → JsValue → Bool

/-- `isCommandVisible` (source lines 172-176): a command with a truthy
`permission` consults the oracle, passing `permission.mode || 'draft'`
(JS `||`, i.e. the fallback also fires on a present-but-falsy mode); any other
command is visible. -/
def isCommandVisible (can : CanFn) (req : Req) (c : Command) : Bool :=
  if jsTruthy c.permission then
    can req (jsProp c.permission "action") (jsProp c.permission "type")
      (if jsTruthy (jsProp c.permission "mode") then jsProp c.permission "mode"
       else .str "draft")
  else true

/-- The filtered command table of `getVisible` (source lines 245-252):
`Object.entries(self.commands).map(...)` yields `[key, command]` for a kept
command and the EMPTY array for a dropped one; `Object.fromEntries` then turns
each empty entry into key `String(undefined) = "undefined"` with value
`undefined` (there is no `.filter` here, unlike lines 195 and 216).  A value of
`none` models that `undefined`. -/
def visibleCommandTable (can : CanFn) (req : Req) (removes : List JsValue)
    (commands : List (String × Command)) : List (String × Option Command) :=
  commands.foldl
    (fun acc kc =>
      if !(jsIncludes removes kc.1) && isCommandVisible can req kc.2 then
        jsSet acc kc.1 (some kc.2)
      else jsSet acc "undefined" none)
    []

/-- A visible group `{...group, fields}` (source line 192): the original group
object with its `fields` property shadowed by the filtered command map. -/
structure GroupView where
  attrs : JsObj
  fields : List (String × Option Command)

/-- One step of the per-group fields reduce (source lines 183-189): a field
name present among the visible keys is copied with `commands[field]` (which is
`undefined` for the placeholder key); any other element, including every
non-string, is skipped (`keys.includes` is a strict comparison against
strings). -/
def fieldStep (cm : List (String × Option Command))
    (acc : List (String × Option Command)) (fv : JsValue) :
    List (String × Option Command) :=
  match fv with
  | .str s =>
    if (cm.map Prod.fst).contains s then jsSet acc s ((jsGet cm s).getD none)
    else acc
  | _ => acc

/-- Message of the TypeError raised by `group.fields.reduce` when a published
group's `fields` is not an array (only the first group is ever validated). -/
def fieldsReduceErrMsg : String := "TypeError: group.fields.reduce is not a function"

/-- The element-wise `.map` of `getVisibleGroups` (source lines 181-194): each
group maps to `[key, {...group, fields}]` when some field survives, and to the
empty pair (modelled `none`) otherwise; an exception from `fields.reduce`
propagates. -/
def visibleGroupPairs (cm : List (String × Option Command)) :
    List (String × JsObj) → Except String (List (Option (String × GroupView)))
  | [] => .ok []
  | kg :: rest =>
    match jsGetD kg.2 "fields" .undefined with
    | .arr xs =>
      match visibleGroupPairs cm rest with
      | .error e => .error e
      | .ok tail =>
        let f := xs.foldl (fieldStep cm) []
        .ok ((if f.isEmpty then none else some (kg.1, GroupView.mk kg.2 f)) :: tail)
    | _ => .error fieldsReduceErrMsg

/-- `getVisibleGroups` (source lines 177-197): map each declared group to its
filtered view, drop the empty ones (`.filter(groups => groups.length)`), and
rebuild an object (`Object.fromEntries`).  `getVisibleModals` (lines 201-217)
duplicates this code verbatim; both are modelled by this single definition. -/
def getVisibleGroups (cm : List (String × Option Command))
    (table : List (String × JsObj)) : Except String (List (String × GroupView)) :=
  match visibleGroupPairs cm table with
  | .error e => .error e
  | .ok pairs => .ok ((pairs.filterMap id).foldl (fun acc p => jsSet acc p.1 p.2) [])

/-- The modal table: `modals[modalKey][groupName]` entries. -/
abbrev ModalAcc := List (String × List (String × GroupView))

/-- Message of the TypeError raised by `field.modal` when `field` is the
`undefined` placeholder value. -/
def modalReadErrMsg : String := "TypeError: Cannot read properties of undefined (reading modal)"

/-- The modal key a visible command is filed under: `field.modal || null` used
as a computed object key, so a falsy `modal` (absent, empty string, ...) lands
on the key `String(null) = "null"`. -/
def jsModalKey (c : Command) : String :=
  if jsTruthy c.modal then jsToPropKey c.modal else "null"

/-- The update of one modal-key table
`{...acc[modal], [key]: {...(acc[modal]?.[key] || group), fields: {...acc[modal]?.[key]?.fields, [name]: field}}}`
(source lines 225-234): the group shell comes from the previous accumulated
entry when present, else from the visible group; the fields map extends the
previously accumulated one. -/
def modalGroupUpdate (mg : List (String × GroupView)) (gname : String) (gv : GroupView)
    (n : String) (c : Command) : List (String × GroupView) :=
  jsSet mg gname
    ⟨((jsGet mg gname).map GroupView.attrs).getD gv.attrs,
     jsSet (((jsGet mg gname).map GroupView.fields).getD []) n (some c)⟩

/-- The `forEach` body of the modal reduce (source lines 222-235): reading
`.modal` throws on the `undefined` placeholder; otherwise the command is
inserted at `modals[modalKey][groupName].fields[name]`, creating the group
shell from the visible group on first encounter. -/
def modalStep (gname : String) (gv : GroupView) (acc : ModalAcc)
    (entry : String × Option Command) : Except String ModalAcc :=
  match entry.2 with
  | none => .error modalReadErrMsg
  | some c =>
    .ok (jsSet acc (jsModalKey c)
      (modalGroupUpdate ((jsGet acc (jsModalKey c)).getD []) gname gv entry.1 c))

/-- `getVisibleModals` (source lines 198-243): recompute the visible groups
(the code is a verbatim copy of `getVisibleGroups`), then accumulate each
group's fields into the modal table. -/
def getVisibleModals (cm : List (String × Option Command))
    (table : List (String × JsObj)) : Except String ModalAcc := do
  let vg ← getVisibleGroups cm table
  vg.foldlM (fun acc p => p.2.fields.foldlM (modalStep p.1 p.2) acc) []

/-- The per-request visibility view `{ groups, modals }`. -/
structure View where
  groups : List (String × GroupView)
  modals : ModalAcc

/-- `getVisible` (source lines 244-261): filter the command table, then build
the group view and the modal view from the same filtered table. -/
def getVisible (can : CanFn) (st : ModuleState) (req : Req) : Except String View := do
  let cm := visibleCommandTable can req st.removes st.commands
  let g ← getVisibleGroups cm st.groups
  let m ← getVisibleModals cm st.groups
  pure ⟨g, m⟩

/-- `getVisible` with the module state threaded explicitly: the source methods
(lines 172-261) never assign to `self.*`, only read it and build fresh objects
by spread, so the state after the call is the state before.  This carrier
makes the absence of mutation a statable fact. -/
def getVisibleRun (can : CanFn) (st : ModuleState) (req : Req) :
    Except String View × ModuleState :=
  (getVisible can st req, st)

/-- The client-facing payload of `getBrowserData`: the boolean `false` for an
anonymous request, or the `{ components: { the }, groups, modals }` object. -/
inductive Payload where
  | boolFalse
  | data (the : JsValue) (groups : List (String × GroupView)) (modals : ModalAcc)

/-- `getBrowserData` (source lines 269-281): a falsy `req.user` short-circuits
to `false`; otherwise the visible view is computed (propagating any exception
it raises) and wrapped with `self.options.components.the || 'TheAposCommandMenu'`. -/
def getBrowserData (theOpt : JsValue) (can : CanFn) (st : ModuleState) (req : Req) :
    Except String Payload :=
  if jsTruthy req.user = false then .ok .boolFalse
  else
    match getVisible can st req with
    | .error e => .error e
    | .ok v =>
      .ok (.data (if jsTruthy theOpt then theOpt else .str "TheAposCommandMenu") v.groups v.modals)

/-! ## Specification-side definitions

The following definitions restate claims of the spec in the spec's own words,
for comparison with the translated code. -/

/-- Spec side of C6: the command contributed for name `n` by the last fragment
declaring it — the last binding of `n` across the concatenation of all `add`
objects in collector order. -/
def lastAdd (frags : List Fragment) (n : String) : Option Command :=
  (((frags.filterMap Fragment.add).flatten).reverse.find?
    (fun p => decide (p.1 = n))).map Prod.snd

/-- All `group` entries for name `g` contributed across the fragments, in
collector order. -/
def groupDeclsAt (frags : List Fragment) (g : String) : List JsObj :=
  (frags.flatMap (fun f => f.group.getD [])).filterMap
    (fun p => if p.1 = g then some p.2 else none)

/-- Spec side of C7 (amended): the merged group for `g` carries the attributes
of the last contributing declaration, with `fields` replaced by the
concatenation of every declaration's fields contribution in collector order. -/
def groupMergeSpec (frags : List Fragment) (g : String) : Option JsObj :=
  (groupDeclsAt frags g).getLast?.map
    (fun lastA => jsSet lastA "fields"
      (.arr ((groupDeclsAt frags g).flatMap
        (fun a => concatArg (jsGetD a "fields" .undefined)))))

/-- The group entries keyed `g` in a flat entry list (proof device relating
the group fold to `groupMergeSpec`). -/
def declsAt (g : String) (entries : List (String × JsObj)) : List JsObj :=
  entries.filterMap (fun p => if p.1 = g then some p.2 else none)

/-- The running merge of successive declarations of one group name: each step
applies the `formatGroups` update to the previously accumulated group object
(proof device for C7). -/
def specFold (prev : Option JsObj) : List JsObj → Option JsObj
  | [] => prev
  | a :: rest =>
    specFold (some (jsSet a "fields"
      (.arr (prevFieldsList prev ++ concatArg (jsGetD a "fields" .undefined))))) rest

/-- Invariant of the modal accumulation (C3 amended): every command filed in
the accumulator sits under the key determined by its modal attribute. -/
def ModalKeyInv (acc : ModalAcc) : Prop :=
  ∀ (k : String) (mg : List (String × GroupView)) (gname : String) (gv : GroupView)
    (n : String) (f : Option Command),
    jsGet acc k = some mg → jsGet mg gname = some gv → jsGet gv.fields n = some f →
    ∃ c, f = some c ∧ k = jsModalKey c

/-- Invariant used for C5: no group view reachable from the modal accumulator
has an entry at the name `n`. -/
def NoKeyInv (n : String) (acc : ModalAcc) : Prop :=
  ∀ (k : String) (mg : List (String × GroupView)) (gname : String) (gv : GroupView),
    jsGet acc k = some mg → jsGet mg gname = some gv → jsGet gv.fields n = none

/-- Spec side of C4 (amended): a command with an absent-or-falsy `permission`
is always visible; otherwise it is visible iff the oracle grants
`(permission.action, permission.type, m)` where `m` is `permission.mode` when
that is truthy and `"draft"` otherwise. -/
def isCommandVisibleAmended (can : CanFn) (req : Req) (c : Command) : Bool :=
  if jsTruthy c.permission = false then true
  else
    can req (jsProp c.permission "action") (jsProp c.permission "type")
      (if jsTruthy (jsProp c.permission "mode") = false then .str "draft"
       else jsProp c.permission "mode")

/-! ## Concrete inputs used by the claim theorems -/

/-- A command satisfying every structural rule. -/
def c1GoodCmd : Command :=
  ⟨.str "item", .str "Good", .obj [], .undefined, .undefined, .str "G"⟩

/-- A command violating the shortcut rule: its shortcut is the number `7`. -/
def c1BadCmd : Command :=
  ⟨.str "item", .str "Bad", .obj [], .undefined, .undefined, .num 7⟩

/-- A command whose `action.type` is a number (violating the claimed rule that
`action` has a string `type`), with everything else valid. -/
def c1ActionCmd : Command :=
  ⟨.str "item", .str "Act", .obj [("type", .num 3)], .undefined, .undefined, .str "A"⟩

/-- One fragment declaring a valid command first and an invalid one second. -/
def c1Frag : Fragment := ⟨some [("good", c1GoodCmd), ("bad", c1BadCmd)], none, some []⟩

/-- The registry state published for `c1Frag`. -/
def c1Published : ModuleState :=
  ⟨[c1Frag], [], [("good", c1GoodCmd), ("bad", c1BadCmd)], [], .undefined⟩

/-- A fragment whose only command is invalid (numeric shortcut), so validation
of the first entry throws. -/
def c2Frag : Fragment :=
  ⟨some [("x", ⟨.str "item", .str "X", .obj [], .undefined, .undefined, .num 7⟩)], none, some []⟩

/-- The composed pipe state for `[c2Frag]`. -/
def c2Composed : PipeState :=
  ⟨[c2Frag], [("x", ⟨.str "item", .str "X", .obj [], .undefined, .undefined, .num 7⟩)],
    [], [], .undefined⟩

/-- A visible command carrying no `modal` attribute. -/
def c3Cmd : Command := ⟨.str "item", .str "C3", .obj [], .undefined, .undefined, .str "c"⟩

/-- A group declaration listing that command. -/
def c3GObj : JsObj := [("label", .str "G"), ("fields", .arr [.str "a"])]

/-- Published state: one command without `modal`, one group containing it. -/
def c3St : ModuleState := ⟨[], [], [("a", c3Cmd)], [("g", c3GObj)], .undefined⟩

/-- An oracle granting everything. -/
def c3Can : CanFn := fun _ _ _ _ => true

/-- An authenticated request. -/
def c3Req : Req := ⟨.obj []⟩

/-- The group view produced for `c3St`. -/
def c3GroupView : GroupView := ⟨c3GObj, [("a", some c3Cmd)]⟩

/-- The full visibility view produced for `c3St`: the modal table files the
modal-less command under the key `"null"`. -/
def c3View : View := ⟨[("g", c3GroupView)], [("null", [("g", c3GroupView)])]⟩

/-- An oracle granting a permission exactly when the mode argument is the
string `"draft"`. -/
def c4Can : CanFn := fun _ _ _ m => jsIsStrEq m "draft"

/-- A permission whose `mode` is present but is the empty string. -/
def c4Perm : JsValue :=
  .obj [("action", .str "edit"), ("type", .str "doc"), ("mode", .str "")]

/-- A command carrying `c4Perm`. -/
def c4Cmd : Command := ⟨.str "item", .str "C4", .obj [], c4Perm, .undefined, .str "c"⟩

/-- An authenticated request for the C4 counterexample. -/
def c4Req : Req := ⟨.obj []⟩

/-- A valid command used in the C5 witness state. -/
def c5Cmd : Command := ⟨.str "item", .str "C5", .obj [], .undefined, .undefined, .str "c"⟩

/-- Witness state for C5: command `b` is in the removal list; group `g` lists
only `a`. -/
def c5St : ModuleState :=
  ⟨[], [.str "b"], [("a", c5Cmd), ("b", c5Cmd)],
    [("g", [("label", .str "G"), ("fields", .arr [.str "a"])])], .undefined⟩

/-- Oracle granting everything, for the C5 witness. -/
def c5Can : CanFn := fun _ _ _ _ => true

/-- Authenticated request for the C5 witness. -/
def c5Req : Req := ⟨.obj []⟩

/-- The group view of the C5 witness state. -/
def c5GroupView : GroupView :=
  ⟨[("label", .str "G"), ("fields", .arr [.str "a"])], [("a", some c5Cmd)]⟩

/-- The visibility view of the C5 witness state. -/
def c5View : View := ⟨[("g", c5GroupView)], [("null", [("g", c5GroupView)])]⟩

/-- A valid command used in the C8 failing state. -/
def c8Cmd : Command := ⟨.str "item", .str "C8", .obj [], .undefined, .undefined, .str "c"⟩

/-- The C8 group declaration: its `fields` list contains the (perfectly valid)
string `"undefined"`. -/
def c8GObj : JsObj := [("label", .str "G"), ("fields", .arr [.str "undefined"])]

/-- The C8 failing published state: command `b` is removed, so the filtered
command table gains the placeholder key `"undefined"`, which group `g`
references. -/
def c8St : ModuleState :=
  ⟨[], [.str "b"], [("a", c8Cmd), ("b", c8Cmd)], [("g", c8GObj)], .undefined⟩

/-- Oracle granting everything, for C8. -/
def c8Can : CanFn := fun _ _ _ _ => true

/-- Group fragment contributing `g` with label `L1` and fields `["a"]`. -/
def c7FragA : Fragment :=
  ⟨none, none, some [("g", [("label", .str "L1"), ("fields", .arr [.str "a"])])]⟩

/-- Group fragment contributing `g` with label `L2` and fields `["b"]`. -/
def c7FragB : Fragment :=
  ⟨none, none, some [("g", [("label", .str "L2"), ("fields", .arr [.str "b"])])]⟩

/-- A fragment declaring only `add` — its missing `group` property makes
`composeGroup` throw. -/
def c7FragNoGroup : Fragment := ⟨some [], none, none⟩

/-- The C7 counterexample fragment sequence: `g` is declared by two fragments,
but a third fragment has no `group` mapping. -/
def c7CexFrags : List Fragment := [c7FragNoGroup, c7FragA, c7FragB]

/-- A valid command for the C10 witness. -/
def c10GoodCmd : Command :=
  ⟨.str "item", .str "Ten", .obj [], .undefined, .undefined, .str "t"⟩

/-- A fragment composing successfully, for the C10 witness. -/
def c10Frag : Fragment := ⟨some [("ok", c10GoodCmd)], none, some []⟩

/-- The composed pipe state for `[c10Frag]`. -/
def c10Composed : PipeState := ⟨[c10Frag], [("ok", c10GoodCmd)], [], [], .undefined⟩

/-- A fragment whose only command is invalid, for the C10 counterexample. -/
def c10BadFrag : Fragment :=
  ⟨some [("x", ⟨.str "item", .str "X", .obj [], .undefined, .undefined, .num 9⟩)], none, some []⟩

/-! ## Basic lemmas about the object model -/

theorem jsGet_jsSet {α : Type} (m : List (String × α)) (k' k : String) (v : α) :
    jsGet (jsSet m k' v) k = if k' = k then some v else jsGet m k := by
  induction m with
  | nil => simp [jsSet, jsGet]
  | cons p rest ih =>
    by_cases h : p.1 = k'
    · simp only [jsSet, h, if_pos rfl, jsGet]
      by_cases hk : k' = k
      · simp [hk]
      · have hpk : ¬ p.1 = k := by rw [h]; exact hk
        simp [hk, hpk]
    · simp only [jsSet, if_neg h, jsGet]
      by_cases hpk : p.1 = k
      · have hk : ¬ k' = k := by intro e; exact h (by rw [hpk, e])
        simp [hpk, hk]
      · simp [hpk, ih]

theorem jsGet_jsSet_self {α : Type} (m : List (String × α)) (k : String) (v : α) :
    jsGet (jsSet m k v) k = some v := by
  simp [jsGet_jsSet]

theorem jsGet_jsSet_ne {α : Type} (m : List (String × α)) {k' k : String} (v : α)
    (h : k' ≠ k) : jsGet (jsSet m k' v) k = jsGet m k := by
  simp [jsGet_jsSet, h]

theorem mem_of_jsGet {α : Type} {m : List (String × α)} {k : String} {v : α}
    (h : jsGet m k = some v) : (k, v) ∈ m := by
  induction m with
  | nil => simp [jsGet] at h
  | cons p rest ih =>
    by_cases hp : p.1 = k
    · simp only [jsGet, if_pos hp] at h
      cases h
      exact List.mem_cons.mpr (Or.inl (by rw [← hp]))
    · simp only [jsGet, if_neg hp] at h
      exact List.mem_cons_of_mem _ (ih h)

theorem jsGet_ne_none_of_mem {α : Type} {m : List (String × α)} {k : String} {v : α}
    (h : (k, v) ∈ m) : jsGet m k ≠ none := by
  induction m with
  | nil => simp at h
  | cons p rest ih =>
    rcases List.mem_cons.mp h with he | ht
    · simp [jsGet, ← he]
    · by_cases hp : p.1 = k
      · simp [jsGet, hp]
      · simp only [jsGet, if_neg hp]
        exact ih ht

theorem mem_jsSet {α : Type} {m : List (String × α)} {k : String} {v : α}
    {a : String} {b : α} (h : (a, b) ∈ jsSet m k v) : (a = k ∧ b = v) ∨ (a, b) ∈ m := by
  induction m with
  | nil =>
    simp [jsSet] at h
    exact Or.inl ⟨h.1, h.2⟩
  | cons p rest ih =>
    by_cases hp : p.1 = k
    · simp only [jsSet, if_pos hp] at h
      rcases List.mem_cons.mp h with he | ht
      · cases he; exact Or.inl ⟨rfl, rfl⟩
      · exact Or.inr (List.mem_cons_of_mem _ ht)
    · simp only [jsSet, if_neg hp] at h
      rcases List.mem_cons.mp h with he | ht
      · exact Or.inr (List.mem_cons.mpr (Or.inl he))
      · rcases ih ht with hl | hr
        · exact Or.inl hl
        · exact Or.inr (List.mem_cons_of_mem _ hr)

theorem mem_foldl_jsSet {α : Type} :
    ∀ (l : List (String × α)) (acc : List (String × α)) {a : String} {b : α},
      (a, b) ∈ l.foldl (fun acc p => jsSet acc p.1 p.2) acc →
      (a, b) ∈ l ∨ (a, b) ∈ acc := by
  intro l
  induction l with
  | nil => intro acc a b h; exact Or.inr h
  | cons p rest ih =>
    intro acc a b h
    rcases ih (jsSet acc p.1 p.2) h with hl | hacc
    · exact Or.inl (List.mem_cons_of_mem _ hl)
    · rcases mem_jsSet hacc with ⟨ha, hb⟩ | hm
      · subst ha; subst hb
        exact Or.inl (List.mem_cons.mpr (Or.inl rfl))
      · exact Or.inr hm

/-! ## Claim theorems -/

/-- C1: the claim that every published command has been checked against all
structural rules is violated by the code: `Object.entries(...).some(...)`
stops after the first command validates, and the `&&`-chained asserts never
run, so the registry below publishes with command `bad` whose shortcut is the
number `7`, and a command whose `action.type` is a number passes
`validateCommand` outright. -/
theorem c1_publishes_invalid_command :
    composeCommands [c1Frag] = .ok c1Published ∧
    jsGet c1Published.commands "bad" = some c1BadCmd ∧
    jsTypeof c1BadCmd.shortcut = "number" ∧
    validateCommand "act" c1ActionCmd = .ok true ∧
    jsTypeof (jsProp c1ActionCmd.action "type") = "number" :=
  ⟨rfl, rfl, rfl, rfl, rfl⟩

/-- C2: whenever the validation step inside the `try` block throws for the
composed commands or groups, the handler returns normally (no exception
escapes) and the process-wide removals, commands and groups are the empty
values written by the pre-composition clearing — not the previous published
state and not a partial result. -/
theorem c2_validation_error_clears_state (frags : List Fragment)
    (composed : PipeState) (e : String)
    (hp : pipeline frags = .ok composed)
    (hv : validateStep composed = .error e) :
    composeCommands frags = .ok ⟨frags, [], [], [], .obj []⟩ := by
  simp only [composeCommands, hp, hv]

/-- Witness for C2 at a concrete fragment whose only command has a numeric
shortcut. -/
theorem c2_validation_error_clears_state_witness :
    pipeline [c2Frag] = .ok c2Composed ∧
    validateStep c2Composed =
      .error "Invalid command shortcut, must be a string, for x" ∧
    composeCommands [c2Frag] = .ok ⟨[c2Frag], [], [], [], .obj []⟩ :=
  ⟨rfl, rfl,
    c2_validation_error_clears_state [c2Frag] c2Composed
      "Invalid command shortcut, must be a string, for x" rfl rfl⟩

/-- C9: visibility resolution is idempotent and mutation-free — the state
component returned by a run is the input state (the source methods never
assign to `self.*`), and a second run on that state yields the same view. -/
theorem c9_resolution_idempotent_pure (can : CanFn) (st : ModuleState) (req : Req) :
    (getVisibleRun can st req).2 = st ∧
    (getVisibleRun can ((getVisibleRun can st req).2) req).1 =
      (getVisibleRun can st req).1 :=
  ⟨rfl, rfl⟩

/-- C4 counterexample: a permission whose `mode` is present (the empty string)
is granted by the code even though the oracle, called with that mode as the
claim requires, denies it — the code consulted the oracle with `"draft"`
because `||` treats the empty string as absent. -/
theorem c4_mode_empty_string_cex :
    jsProp c4Cmd.permission "mode" = .str "" ∧
    isCommandVisible c4Can c4Req c4Cmd = true ∧
    c4Can c4Req (jsProp c4Cmd.permission "action") (jsProp c4Cmd.permission "type")
      (jsProp c4Cmd.permission "mode") = false :=
  ⟨rfl, rfl, rfl⟩

/-- C4 (amended): a command with an absent-or-falsy `permission` passes the
filter unconditionally; with a truthy `permission` it passes iff the oracle
grants `(permission.action, permission.type, m)` where `m` is
`permission.mode` when truthy and `"draft"` when `permission.mode` is absent
or falsy. -/
theorem c4_visibility_matches_amended_spec (can : CanFn) (req : Req) (c : Command) :
    isCommandVisible can req c = isCommandVisibleAmended can req c := by
  unfold isCommandVisible isCommandVisibleAmended
  cases jsTruthy c.permission <;>
    cases jsTruthy (jsProp c.permission "mode") <;> simp

/-- C7 counterexample: in this fragment sequence `g` is declared by two
fragments, but a third fragment carries no `group` mapping, so the group-merge
stage throws `Object.entries(undefined)` instead of producing the merged
group. -/
theorem c7_groupless_fragment_cex :
    composeGroupTable c7CexFrags = .error objectEntriesErrMsg ∧
    (groupDeclsAt c7CexFrags "g").length = 2 :=
  ⟨rfl, rfl⟩

/-- C8: the code contradicts the claim that every authenticated identity gets
a `{ components, groups, modals }` payload.  On the fully-validatable state
`c8St` (command `b` removed, group `g` listing the string `"undefined"`), an
anonymous request yields `false` as claimed, but an authenticated request
makes the resolver throw a TypeError: the unfiltered `: []` entries of
`getVisible` create an `"undefined"` key whose value is `undefined`, and
`getVisibleModals` reads `.modal` of it. -/
theorem c8_authenticated_request_throws :
    getBrowserData JsValue.undefined c8Can c8St ⟨JsValue.undefined⟩ =
      .ok Payload.boolFalse ∧
    jsTruthy (JsValue.obj []) = true ∧
    getBrowserData JsValue.undefined c8Can c8St ⟨JsValue.obj []⟩ =
      .error modalReadErrMsg ∧
    validateCommand "a" c8Cmd = .ok true ∧
    validateGroup "g" c8GObj = .ok true :=
  ⟨rfl, rfl, rfl, rfl, rfl⟩

/-- C10 counterexample: after a FAILED composition cycle (first command
invalid) the modals field is the empty object written by the clearing step,
not `undefined` as the claim states for every cycle. -/
theorem c10_modals_on_failed_cycle_cex :
    composeCommands [c10BadFrag] = .ok ⟨[c10BadFrag], [], [], [], .obj []⟩ ∧
    JsValue.obj [] ≠ JsValue.undefined :=
  ⟨rfl, fun h => JsValue.noConfusion h⟩

/-- C10 (amended): the pipeline has no modal stage, so after a successful
cycle the published `modals` is `undefined` (`composed.modal`); after a cycle
whose validation fails it is the empty object left by the clearing step. -/
theorem c10_modals_after_cycle (frags : List Fragment) (composed : PipeState)
    (hp : pipeline frags = .ok composed) :
    (validateStep composed = .ok () →
      ∃ st, composeCommands frags = .ok st ∧ st.modals = .undefined) ∧
    (∀ e, validateStep composed = .error e →
      ∃ st, composeCommands frags = .ok st ∧ st.modals = .obj []) := by
  have hmodal : composed.modal = .undefined := by
    unfold pipeline at hp
    cases hg : composeGroupTable frags with
    | error e => rw [hg] at hp; cases hp
    | ok g =>
      rw [hg] at hp
      cases hp
      rfl
  constructor
  · intro hv
    refine ⟨⟨frags, composed.remove, composed.command, composed.group, composed.modal⟩, ?_, hmodal⟩
    simp only [composeCommands, hp, hv]
  · intro e hv
    refine ⟨⟨frags, [], [], [], .obj []⟩, ?_, rfl⟩
    simp only [composeCommands, hp, hv]

/-- Witness for C10 at a concrete successful cycle. -/
theorem c10_modals_after_cycle_witness :
    pipeline [c10Frag] = .ok c10Composed ∧
    validateStep c10Composed = .ok () ∧
    (∃ st, composeCommands [c10Frag] = .ok st ∧ st.modals = .undefined) :=
  ⟨rfl, rfl, (c10_modals_after_cycle [c10Frag] c10Composed rfl).1 rfl⟩

/-- C3 counterexample: on `c3St` the command `a` is visible and carries no
`modal` attribute, yet it appears in the modal view, under
`modals["null"]["g"]` — `field.modal || null` is used as a computed key, and
`String(null)` is `"null"`. -/
theorem c3_no_modal_under_null_cex :
    c3Cmd.modal = JsValue.undefined ∧
    getVisible c3Can c3St c3Req = .ok c3View ∧
    jsGet c3View.modals "null" = some [("g", c3GroupView)] ∧
    jsGet c3GroupView.fields "a" = some (some c3Cmd) :=
  ⟨rfl, rfl, rfl, rfl⟩

/-- Folding property assignments over a list of entries: the result of a
lookup is the value of the last entry with that key, falling back to the
initial object. -/
theorem jsGet_foldl_jsSet {α : Type} (k : String) :
    ∀ (entries m : List (String × α)),
      jsGet (entries.foldl (fun a p => jsSet a p.1 p.2) m) k
        = ((entries.reverse.find? (fun p => decide (p.1 = k))).map Prod.snd).or (jsGet m k) := by
  intro entries
  induction entries with
  | nil => intro m; simp
  | cons p rest ih =>
    intro m
    simp only [List.foldl_cons, List.reverse_cons]
    rw [ih (jsSet m p.1 p.2), List.find?_append]
    by_cases h : p.1 = k
    · have h1 : List.find? (fun q => decide (q.1 = k)) [p] = some p := by
        simp [List.find?, h]
      rw [h1, jsGet_jsSet]
      cases hf : List.find? (fun q => decide (q.1 = k)) rest.reverse <;>
        simp [h, hf, Option.or]
    · have h1 : List.find? (fun q => decide (q.1 = k)) [p] = none := by
        simp [List.find?, h]
      rw [h1, jsGet_jsSet]
      cases hf : List.find? (fun q => decide (q.1 = k)) rest.reverse <;>
        simp [h, hf, Option.or]

/-- C6: add-merge is last-writer-wins over collector order — the composed
command table maps each name to the entire command object contributed by the
last fragment declaring that name, and in particular composing
`[{add:{x:A}}, {add:{x:B}}]` yields `commands.x == B`. -/
theorem c6_add_merge_last_writer_wins :
    (∀ (frags : List Fragment) (n : String),
      jsGet (composeCommandTable frags) n = lastAdd frags n) ∧
    (∀ A B : Command,
      jsGet (composeCommandTable
        [⟨some [("x", A)], none, none⟩, ⟨some [("x", B)], none, none⟩]) "x" = some B) := by
  constructor
  · intro frags n
    unfold composeCommandTable lastAdd
    rw [← List.foldl_flatten (fun a p => jsSet a p.1 p.2) [] (frags.filterMap Fragment.add)]
    rw [jsGet_foldl_jsSet]
    simp [jsGet]
  · intro A B
    rfl

/-- Setting then reading the same property yields the written value. -/
theorem jsGetD_jsSet_self {α : Type} (m : List (String × α)) (k : String) (v d : α) :
    jsGetD (jsSet m k v) k d = v := by
  simp [jsGetD, jsGet_jsSet_self]

/-- Unfolding equation of `specFold` on a cons cell. -/
theorem specFold_cons (prev : Option JsObj) (a : JsObj) (rest : List JsObj) :
    specFold prev (a :: rest) =
      specFold (some (jsSet a "fields"
        (.arr (prevFieldsList prev ++ concatArg (jsGetD a "fields" .undefined))))) rest :=
  rfl

/-- Closed form of `specFold`: attributes come from the last declaration and
`fields` is the concatenation of every declaration's contribution after the
initial fields. -/
theorem specFold_closed :
    ∀ (decls : List JsObj) (prev : Option JsObj) (lastA : JsObj),
      decls.getLast? = some lastA →
      specFold prev decls =
        some (jsSet lastA "fields"
          (.arr (prevFieldsList prev ++
            decls.flatMap (fun a => concatArg (jsGetD a "fields" .undefined))))) := by
  intro decls
  induction decls with
  | nil => intro prev lastA h; simp at h
  | cons a rest ih =>
    intro prev lastA h
    have hpf : prevFieldsList (some (jsSet a "fields"
        (.arr (prevFieldsList prev ++ concatArg (jsGetD a "fields" .undefined)))))
        = prevFieldsList prev ++ concatArg (jsGetD a "fields" .undefined) := by
      simp [prevFieldsList, jsGetD_jsSet_self]
    cases rest with
    | nil =>
      simp only [List.getLast?_singleton] at h
      cases h
      rw [specFold_cons]
      simp [specFold, hpf]
    | cons b rest' =>
      have h2 : (b :: rest').getLast? = some lastA := by
        rwa [List.getLast?_cons_cons] at h
      rw [specFold_cons, ih _ lastA h2, hpf]
      simp [List.append_assoc]

/-- The group fold with every fragment carrying a `group` mapping flattens to a
plain fold over all group entries. -/
theorem composeGroupTable_go :
    ∀ (frags : List Fragment) (st : List (String × JsObj)),
      (∀ f ∈ frags, (f.group).isSome = true) →
      (frags.foldlM (fun st f =>
        match f.group with
        | none => Except.error objectEntriesErrMsg
        | some es => Except.ok (es.foldl entryStep st)) st)
      = .ok ((frags.flatMap (fun f => f.group.getD [])).foldl entryStep st) := by
  intro frags
  induction frags with
  | nil => intro st h; rfl
  | cons f rest ih =>
    intro st h
    obtain ⟨es, hes⟩ := Option.isSome_iff_exists.mp (h f (List.mem_cons_self f rest))
    rw [List.foldlM_cons, hes]
    show rest.foldlM _ (es.foldl entryStep st) = _
    rw [ih _ (fun g hg => h g (List.mem_cons_of_mem f hg))]
    simp [hes, List.foldl_append]

/-- Lookup after the flattened group fold equals the running merge of the
declarations for that name. -/
theorem jsGet_foldl_entryStep (g : String) :
    ∀ (entries : List (String × JsObj)) (st : List (String × JsObj)),
      jsGet (entries.foldl entryStep st) g = specFold (jsGet st g) (declsAt g entries) := by
  intro entries
  induction entries with
  | nil => intro st; rfl
  | cons p rest ih =>
    intro st
    rw [List.foldl_cons, ih]
    by_cases h : p.1 = g
    · have hd : declsAt g (p :: rest) = p.2 :: declsAt g rest := by
        simp [declsAt, h]
      rw [hd, specFold_cons]
      congr 1
      unfold entryStep
      rw [h, jsGet_jsSet_self]
    · have hd : declsAt g (p :: rest) = declsAt g rest := by
        simp [declsAt, h]
      rw [hd]
      congr 1
      unfold entryStep
      exact jsGet_jsSet_ne _ _ h

/-- C7 (amended): for every fragment sequence in which each fragment carries a
`group` mapping, group-merge succeeds and, for every group name, produces the
group whose attributes come from the last contributing declaration and whose
`fields` is the concatenation of all contributed fields sequences in collector
order. -/
theorem c7_group_merge_amended (frags : List Fragment) (g : String)
    (h : ∀ f ∈ frags, (f.group).isSome = true) :
    ∃ table, composeGroupTable frags = .ok table ∧
      jsGet table g = groupMergeSpec frags g := by
  refine ⟨(frags.flatMap (fun f => f.group.getD [])).foldl entryStep [],
    composeGroupTable_go frags [] h, ?_⟩
  rw [jsGet_foldl_entryStep]
  show specFold none (groupDeclsAt frags g) = groupMergeSpec frags g
  cases hl : (groupDeclsAt frags g).getLast? with
  | none =>
    have hnil : groupDeclsAt frags g = [] := by
      cases hgd : groupDeclsAt frags g with
      | nil => rfl
      | cons x xs => rw [hgd] at hl; simp [List.getLast?] at hl
    rw [hnil]
    simp [specFold, groupMergeSpec, hnil]
  | some lastA =>
    rw [specFold_closed _ _ _ hl]
    simp [groupMergeSpec, hl, prevFieldsList]

/-- Witness for C7 on the claim's own two-fragment example: merging the two
declarations of `g` yields `{label: "L2", fields: ["a", "b"]}`. -/
theorem c7_group_merge_amended_witness :
    (∀ f ∈ [c7FragA, c7FragB], (f.group).isSome = true) ∧
    groupMergeSpec [c7FragA, c7FragB] "g" =
      some [("label", .str "L2"), ("fields", .arr [.str "a", .str "b"])] ∧
    (∃ table, composeGroupTable [c7FragA, c7FragB] = .ok table ∧
      jsGet table "g" = groupMergeSpec [c7FragA, c7FragB] "g") :=
  ⟨by decide, by rfl, c7_group_merge_amended [c7FragA, c7FragB] "g" (by decide)⟩

/-- A property of modal accumulators preserved by every successful `modalStep`
on entries satisfying `Q` is preserved by the inner fields fold. -/
theorem foldlM_modalStep_inv (P : ModalAcc → Prop)
    (Q : String × Option Command → Prop) (gname : String) (gv : GroupView)
    (hstep : ∀ acc e r, Q e → P acc → modalStep gname gv acc e = .ok r → P r) :
    ∀ (l : List (String × Option Command)) (acc r : ModalAcc),
      (∀ e ∈ l, Q e) → P acc →
      l.foldlM (modalStep gname gv) acc = .ok r → P r := by
  intro l
  induction l with
  | nil =>
    intro acc r _ hP h
    injection h with h
    rw [← h]
    exact hP
  | cons e rest ih =>
    intro acc r hQ hP h
    rw [List.foldlM_cons] at h
    cases hs : modalStep gname gv acc e with
    | error err =>
      rw [hs] at h
      exact Except.noConfusion
        (show (Except.error err : Except String ModalAcc) = .ok r from h)
    | ok acc2 =>
      rw [hs] at h
      have h2 : rest.foldlM (modalStep gname gv) acc2 = .ok r := h
      exact ih acc2 r (fun q hq => hQ q (List.mem_cons_of_mem _ hq))
        (hstep acc e acc2 (hQ e (List.mem_cons_self _ _)) hP hs) h2

/-- A property of modal accumulators preserved by each group's fields fold
(for groups satisfying `R`) is preserved by the outer groups fold. -/
theorem foldlM_groups_inv (P : ModalAcc → Prop) (R : String × GroupView → Prop)
    (hstep : ∀ (p : String × GroupView) (acc r : ModalAcc), R p → P acc →
      p.2.fields.foldlM (modalStep p.1 p.2) acc = .ok r → P r) :
    ∀ (vgl : List (String × GroupView)) (acc r : ModalAcc),
      (∀ p ∈ vgl, R p) → P acc →
      (vgl.foldlM (fun acc p => p.2.fields.foldlM (modalStep p.1 p.2) acc) acc) = .ok r →
      P r := by
  intro vgl
  induction vgl with
  | nil =>
    intro acc r _ hP h
    injection h with h
    rw [← h]
    exact hP
  | cons p rest ih =>
    intro acc r hR hP h
    rw [List.foldlM_cons] at h
    cases hs : p.2.fields.foldlM (modalStep p.1 p.2) acc with
    | error err =>
      rw [hs] at h
      exact Except.noConfusion
        (show (Except.error err : Except String ModalAcc) = .ok r from h)
    | ok acc2 =>
      rw [hs] at h
      have h2 : rest.foldlM (fun acc p => p.2.fields.foldlM (modalStep p.1 p.2) acc) acc2
          = Except.ok r := h
      exact ih acc2 r (fun q hq => hR q (List.mem_cons_of_mem _ hq))
        (hstep p acc acc2 (hR p (List.mem_cons_self _ _)) hP hs) h2

/-- One successful `modalStep` preserves the modal-key invariant: the inserted
command lands under its own modal key, everything else is untouched. -/
theorem modalStep_preserves_modalKeyInv {gname : String} {gv : GroupView}
    {acc : ModalAcc} {e : String × Option Command} {r : ModalAcc}
    (hinv : ModalKeyInv acc) (hstep : modalStep gname gv acc e = .ok r) :
    ModalKeyInv r := by
  obtain ⟨n0, f0⟩ := e
  cases f0 with
  | none => simp [modalStep] at hstep
  | some c0 =>
    simp only [modalStep] at hstep
    injection hstep with hr
    rw [← hr]
    intro k mg gname' gv' n f h1 h2 h3
    rw [jsGet_jsSet] at h1
    by_cases hk : jsModalKey c0 = k
    · rw [if_pos hk] at h1
      injection h1 with hmg
      rw [← hmg] at h2
      unfold modalGroupUpdate at h2
      rw [jsGet_jsSet] at h2
      by_cases hg : gname = gname'
      · rw [if_pos hg] at h2
        injection h2 with hgv
        rw [← hgv] at h3
        dsimp only at h3
        rw [jsGet_jsSet] at h3
        by_cases hn : n0 = n
        · rw [if_pos hn] at h3
          injection h3 with hf
          exact ⟨c0, hf.symm, hk.symm⟩
        · rw [if_neg hn] at h3
          cases hm0 : jsGet acc (jsModalKey c0) with
          | none => rw [hm0] at h3; simp [jsGet] at h3
          | some m0 =>
            rw [hm0] at h3
            simp only [Option.getD_some] at h3
            cases hp : jsGet m0 gname with
            | none => rw [hp] at h3; simp [jsGet] at h3
            | some p =>
              rw [hp] at h3
              simp only [Option.map_some', Option.getD_some] at h3
              obtain ⟨c, hc, hkey⟩ := hinv (jsModalKey c0) m0 gname p n f hm0 hp h3
              exact ⟨c, hc, by rw [← hk]; exact hkey⟩
      · rw [if_neg hg] at h2
        cases hm0 : jsGet acc (jsModalKey c0) with
        | none => rw [hm0] at h2; simp [jsGet] at h2
        | some m0 =>
          rw [hm0] at h2
          simp only [Option.getD_some] at h2
          obtain ⟨c, hc, hkey⟩ := hinv (jsModalKey c0) m0 gname' gv' n f hm0 h2 h3
          exact ⟨c, hc, by rw [← hk]; exact hkey⟩
    · rw [if_neg hk] at h1
      exact hinv k mg gname' gv' n f h1 h2 h3

/-- C3 (amended): in every successful modal view, every entry of
`modals[k][gname].fields` is an actual command filed under the key determined
by its `modal` attribute — `jsModalKey`, which is the stringified modal for a
truthy modal and `"null"` otherwise.  In particular a visible command with no
`modal` attribute appears only under the key `"null"`, not under any other
modal key — but it does appear, contrary to the original claim. -/
theorem c3_modal_key_characterization (cm : List (String × Option Command))
    (table : List (String × JsObj)) (out : ModalAcc)
    (k : String) (mg : List (String × GroupView)) (gname : String) (gv : GroupView)
    (n : String) (f : Option Command)
    (hm : getVisibleModals cm table = .ok out)
    (h1 : jsGet out k = some mg) (h2 : jsGet mg gname = some gv)
    (h3 : jsGet gv.fields n = some f) :
    ∃ c, f = some c ∧ k = jsModalKey c := by
  unfold getVisibleModals at hm
  cases hvg : getVisibleGroups cm table with
  | error e =>
    rw [hvg] at hm
    exact Except.noConfusion
      (show (Except.error e : Except String ModalAcc) = .ok out from hm)
  | ok vg =>
    rw [hvg] at hm
    have hm' : (vg.foldlM (fun acc p => p.2.fields.foldlM (modalStep p.1 p.2) acc) [])
        = .ok out := hm
    have hinv : ModalKeyInv out := by
      refine foldlM_groups_inv ModalKeyInv (fun _ => True)
        (fun p acc r _ hP hf => ?_) vg [] out (fun _ _ => trivial) ?_ hm'
      · exact foldlM_modalStep_inv ModalKeyInv (fun _ => True) p.1 p.2
          (fun acc' e' r' _ hP' hs' => modalStep_preserves_modalKeyInv hP' hs')
          p.2.fields acc r (fun _ _ => trivial) hP hf
      · intro k' mg' gname' gv' n' f' h1' _ _
        simp [jsGet] at h1'
    exact hinv k mg gname gv n f h1 h2 h3

/-- Witness for C3 (amended) at the concrete state `c3St`. -/
theorem c3_modal_key_characterization_witness :
    getVisibleModals (visibleCommandTable c3Can c3Req c3St.removes c3St.commands)
      c3St.groups = .ok c3View.modals ∧
    (∃ c, (some c3Cmd : Option Command) = some c ∧ "null" = jsModalKey c) :=
  ⟨rfl,
    c3_modal_key_characterization
      (visibleCommandTable c3Can c3Req c3St.removes c3St.commands) c3St.groups
      c3View.modals "null" [("g", c3GroupView)] "g" c3GroupView "a" (some c3Cmd)
      rfl rfl rfl rfl⟩

/-- In the filtered command table, any value stored at a name present in the
removal list is the `undefined` placeholder: a removed command's own entry is
the empty pair, and no kept entry can carry a removed name. -/
theorem visibleCommandTable_removed {can : CanFn} {req : Req} {removes : List JsValue}
    (n : String) (hrm : jsIncludes removes n = true) :
    ∀ (cs : List (String × Command)) (acc : List (String × Option Command)),
      (∀ v, jsGet acc n = some v → v = none) →
      ∀ v, jsGet (cs.foldl (fun acc kc =>
        if !(jsIncludes removes kc.1) && isCommandVisible can req kc.2 then
          jsSet acc kc.1 (some kc.2)
        else jsSet acc "undefined" none) acc) n = some v → v = none := by
  intro cs
  induction cs with
  | nil => intro acc hQ v h; exact hQ v h
  | cons kc rest ih =>
    intro acc hQ v h
    rw [List.foldl_cons] at h
    refine ih _ ?_ v h
    intro v' h'
    split at h'
    case isTrue hc =>
      rw [jsGet_jsSet] at h'
      by_cases hk : kc.1 = n
      · exfalso
        have hand := (Bool.and_eq_true _ _).mp hc
        have hnot : jsIncludes removes kc.1 = false := by
          have h1 := hand.1
          cases hI : jsIncludes removes kc.1
          · rfl
          · rw [hI] at h1; simp at h1
        rw [hk, hrm] at hnot
        exact Bool.noConfusion hnot
      · rw [if_neg hk] at h'
        exact hQ v' h'
    case isFalse hc =>
      rw [jsGet_jsSet] at h'
      by_cases hu : "undefined" = n
      · rw [if_pos hu] at h'
        injection h' with h''
        exact h''.symm
      · rw [if_neg hu] at h'
        exact hQ v' h'

/-- Every value a fields fold stores at `n` is the table's value at `n`. -/
theorem fieldStep_fold_val (cm : List (String × Option Command)) (n : String) :
    ∀ (xs : List JsValue) (acc : List (String × Option Command)),
      (∀ f, jsGet acc n = some f → f = (jsGet cm n).getD none) →
      ∀ f, jsGet (xs.foldl (fieldStep cm) acc) n = some f →
        f = (jsGet cm n).getD none := by
  intro xs
  induction xs with
  | nil => intro acc hQ f h; exact hQ f h
  | cons fv rest ih =>
    intro acc hQ f h
    rw [List.foldl_cons] at h
    refine ih _ ?_ f h
    intro f' h'
    cases fv with
    | str s =>
      simp only [fieldStep] at h'
      split at h'
      next hctn =>
        rw [jsGet_jsSet] at h'
        by_cases hs : s = n
        · rw [if_pos hs] at h'
          injection h' with h''
          rw [hs] at h''
          exact h''.symm
        · rw [if_neg hs] at h'
          exact hQ f' h'
      next hctn => exact hQ f' h'
    | num m => exact hQ f' h'
    | bool b => exact hQ f' h'
    | null => exact hQ f' h'
    | undefined => exact hQ f' h'
    | obj es => exact hQ f' h'
    | arr es => exact hQ f' h'

/-- Every group view produced by the per-group map stores, at a name whose
table value is the placeholder, only the placeholder. -/
theorem visibleGroupPairs_clean {cm : List (String × Option Command)} (n : String)
    (hn : ∀ v, jsGet cm n = some v → v = none) :
    ∀ (table : List (String × JsObj)) (pairs : List (Option (String × GroupView))),
      visibleGroupPairs cm table = .ok pairs →
      ∀ q ∈ pairs.filterMap id, ∀ f, jsGet q.2.fields n = some f → f = none := by
  intro table
  induction table with
  | nil =>
    intro pairs h q hq f hf
    injection h with h
    rw [← h] at hq
    simp at hq
  | cons kg rest ih =>
    intro pairs h q hq f hf
    unfold visibleGroupPairs at h
    have hval : ∀ f', f' = (jsGet cm n).getD none → f' = none := by
      intro f' hf'
      cases hcmn : jsGet cm n with
      | none => rw [hcmn] at hf'; simpa using hf'
      | some v =>
        rw [hcmn] at hf'
        simp only [Option.getD_some] at hf'
        rw [hf']
        exact hn v hcmn
    cases harr : jsGetD kg.2 "fields" JsValue.undefined with
    | arr xs =>
      rw [harr] at h
      cases hrest : visibleGroupPairs cm rest with
      | error e =>
        rw [hrest] at h
        exact Except.noConfusion
          (show (Except.error e : Except String (List (Option (String × GroupView))))
            = .ok pairs from h)
      | ok tail =>
        rw [hrest] at h
        have h2 : ((if (xs.foldl (fieldStep cm) []).isEmpty then none
            else some (kg.1, GroupView.mk kg.2 (xs.foldl (fieldStep cm) []))) :: tail)
            = pairs := by
          injection h
        rw [← h2] at hq
        by_cases hemp : (xs.foldl (fieldStep cm) []).isEmpty
        · rw [if_pos hemp] at hq
          simp only [List.filterMap_cons, id] at hq
          exact ih tail hrest q hq f hf
        · rw [if_neg hemp] at hq
          simp only [List.filterMap_cons, id] at hq
          rcases List.mem_cons.mp hq with he | ht
          · have hfields : q.2.fields = xs.foldl (fieldStep cm) [] := by
              rw [he]
            rw [hfields] at hf
            refine hval f (fieldStep_fold_val cm n xs [] ?_ f hf)
            intro f0 h0
            simp [jsGet] at h0
          · exact ih tail hrest q ht f hf
    | str s =>
      rw [harr] at h
      exact Except.noConfusion
        (show (Except.error fieldsReduceErrMsg
          : Except String (List (Option (String × GroupView)))) = .ok pairs from h)
    | num m =>
      rw [harr] at h
      exact Except.noConfusion
        (show (Except.error fieldsReduceErrMsg
          : Except String (List (Option (String × GroupView)))) = .ok pairs from h)
    | bool b =>
      rw [harr] at h
      exact Except.noConfusion
        (show (Except.error fieldsReduceErrMsg
          : Except String (List (Option (String × GroupView)))) = .ok pairs from h)
    | null =>
      rw [harr] at h
      exact Except.noConfusion
        (show (Except.error fieldsReduceErrMsg
          : Except String (List (Option (String × GroupView)))) = .ok pairs from h)
    | undefined =>
      rw [harr] at h
      exact Except.noConfusion
        (show (Except.error fieldsReduceErrMsg
          : Except String (List (Option (String × GroupView)))) = .ok pairs from h)
    | obj es =>
      rw [harr] at h
      exact Except.noConfusion
        (show (Except.error fieldsReduceErrMsg
          : Except String (List (Option (String × GroupView)))) = .ok pairs from h)

/-- If the fields fold of one group succeeds, no processed entry carried the
`undefined` placeholder (reading `.modal` of it would have thrown). -/
theorem fields_foldlM_ok_no_none (gname : String) (gv : GroupView) :
    ∀ (l : List (String × Option Command)) (acc r : ModalAcc),
      l.foldlM (modalStep gname gv) acc = .ok r → ∀ q ∈ l, q.2 ≠ none := by
  intro l
  induction l with
  | nil => intro acc r _ q hq; simp at hq
  | cons e rest ih =>
    intro acc r h q hq
    rw [List.foldlM_cons] at h
    cases hf : e.2 with
    | none =>
      have hs : modalStep gname gv acc e = .error modalReadErrMsg := by
        simp [modalStep, hf]
      rw [hs] at h
      exact absurd
        (show (Except.error modalReadErrMsg : Except String ModalAcc) = .ok r from h)
        (by simp)
    | some c =>
      have hs : modalStep gname gv acc e = .ok (jsSet acc (jsModalKey c)
          (modalGroupUpdate ((jsGet acc (jsModalKey c)).getD []) gname gv e.1 c)) := by
        simp [modalStep, hf]
      rw [hs] at h
      have h2 : rest.foldlM (modalStep gname gv) (jsSet acc (jsModalKey c)
          (modalGroupUpdate ((jsGet acc (jsModalKey c)).getD []) gname gv e.1 c))
          = Except.ok r := h
      rcases List.mem_cons.mp hq with he | ht
      · rw [he, hf]; simp
      · exact ih _ r h2 q ht

/-- If the whole modal fold succeeds, no group view it visited contains the
`undefined` placeholder. -/
theorem groups_foldlM_ok_no_none :
    ∀ (vgl : List (String × GroupView)) (acc r : ModalAcc),
      (vgl.foldlM (fun acc p => p.2.fields.foldlM (modalStep p.1 p.2) acc) acc) = .ok r →
      ∀ p ∈ vgl, ∀ q ∈ p.2.fields, q.2 ≠ none := by
  intro vgl
  induction vgl with
  | nil => intro acc r _ p hp; simp at hp
  | cons p0 rest ih =>
    intro acc r h p hp
    rw [List.foldlM_cons] at h
    cases hs : p0.2.fields.foldlM (modalStep p0.1 p0.2) acc with
    | error err =>
      rw [hs] at h
      exact absurd
        (show (Except.error err : Except String ModalAcc) = .ok r from h) (by simp)
    | ok acc2 =>
      rw [hs] at h
      have h2 : rest.foldlM (fun acc p => p.2.fields.foldlM (modalStep p.1 p.2) acc) acc2
          = Except.ok r := h
      rcases List.mem_cons.mp hp with he | ht
      · rw [he]
        exact fields_foldlM_ok_no_none p0.1 p0.2 p0.2.fields acc acc2 hs
      · exact ih acc2 r h2 p ht

/-- One successful `modalStep` on an entry whose name differs from `n`
preserves the absence of `n` from every accumulated group view. -/
theorem modalStep_preserves_noKeyInv {n : String} {gname : String} {gv : GroupView}
    {acc : ModalAcc} {e : String × Option Command} {r : ModalAcc}
    (hne : e.1 ≠ n) (hinv : NoKeyInv n acc) (hstep : modalStep gname gv acc e = .ok r) :
    NoKeyInv n r := by
  obtain ⟨n0, f0⟩ := e
  cases f0 with
  | none => simp [modalStep] at hstep
  | some c0 =>
    simp only [modalStep] at hstep
    injection hstep with hr
    rw [← hr]
    intro k mg gname' gv' h1 h2
    rw [jsGet_jsSet] at h1
    by_cases hk : jsModalKey c0 = k
    · rw [if_pos hk] at h1
      injection h1 with hmg
      rw [← hmg] at h2
      unfold modalGroupUpdate at h2
      rw [jsGet_jsSet] at h2
      by_cases hg : gname = gname'
      · rw [if_pos hg] at h2
        injection h2 with hgv
        rw [← hgv]
        dsimp only
        rw [jsGet_jsSet]
        rw [if_neg hne]
        cases hm0 : jsGet acc (jsModalKey c0) with
        | none => simp [jsGet]
        | some m0 =>
          simp only [Option.getD_some]
          cases hp : jsGet m0 gname with
          | none => simp [jsGet]
          | some p =>
            simp only [Option.map_some', Option.getD_some]
            exact hinv (jsModalKey c0) m0 gname p hm0 hp
      · rw [if_neg hg] at h2
        cases hm0 : jsGet acc (jsModalKey c0) with
        | none => rw [hm0] at h2; simp [jsGet] at h2
        | some m0 =>
          rw [hm0] at h2
          simp only [Option.getD_some] at h2
          exact hinv (jsModalKey c0) m0 gname' gv' hm0 h2
    · rw [if_neg hk] at h1
      exact hinv k mg gname' gv' h1 h2

/-- C5: for every published registry, removal list and identity, whenever
visibility resolution returns a view, no command whose name appears in the
removal list occurs anywhere in it — neither in any group's filtered fields
nor in any modal entry. -/
theorem c5_removed_never_visible (can : CanFn) (st : ModuleState) (req : Req)
    (view : View) (n : String)
    (hok : getVisible can st req = .ok view)
    (hrm : jsIncludes st.removes n = true) :
    (∀ gname gv, jsGet view.groups gname = some gv → jsGet gv.fields n = none) ∧
    (∀ k mg gname gv, jsGet view.modals k = some mg → jsGet mg gname = some gv →
      jsGet gv.fields n = none) := by
  simp only [getVisible] at hok
  cases hvg : getVisibleGroups (visibleCommandTable can req st.removes st.commands)
      st.groups with
  | error e =>
    rw [hvg] at hok
    exact Except.noConfusion
      (show (Except.error e : Except String View) = .ok view from hok)
  | ok vg =>
    rw [hvg] at hok
    cases hvm : getVisibleModals (visibleCommandTable can req st.removes st.commands)
        st.groups with
    | error e =>
      rw [hvm] at hok
      exact Except.noConfusion
        (show (Except.error e : Except String View) = .ok view from hok)
    | ok m =>
      rw [hvm] at hok
      have hview : View.mk vg m = view := by
        have hok2 : (Except.ok (View.mk vg m) : Except String View) = .ok view := hok
        injection hok2
      have hcm : ∀ v,
          jsGet (visibleCommandTable can req st.removes st.commands) n = some v →
          v = none := by
        intro v hv
        exact visibleCommandTable_removed n hrm st.commands []
          (by intro v' hv'; simp [jsGet] at hv') v hv
      have hmfold : (vg.foldlM (fun acc p => p.2.fields.foldlM (modalStep p.1 p.2) acc) [])
          = Except.ok m := by
        have h2 := hvm
        unfold getVisibleModals at h2
        rw [hvg] at h2
        exact h2
      have hnonone : ∀ p ∈ vg, ∀ q ∈ p.2.fields, q.2 ≠ none :=
        groups_foldlM_ok_no_none vg [] m hmfold
      have hclean : ∀ p ∈ vg, ∀ f, jsGet p.2.fields n = some f → f = none := by
        intro p hp f hf
        have h2 := hvg
        unfold getVisibleGroups at h2
        cases hpp : visibleGroupPairs (visibleCommandTable can req st.removes st.commands)
            st.groups with
        | error e =>
          rw [hpp] at h2
          exact Except.noConfusion
            (show (Except.error e : Except String (List (String × GroupView)))
              = .ok vg from h2)
        | ok pairs =>
          rw [hpp] at h2
          injection h2 with h3
          rw [← h3] at hp
          rcases mem_foldl_jsSet _ _ hp with hmem | hemp
          · exact visibleGroupPairs_clean n hcm st.groups pairs hpp p hmem f hf
          · simp at hemp
      have hcleang : ∀ p ∈ vg, jsGet p.2.fields n = none := by
        intro p hp
        cases hj : jsGet p.2.fields n with
        | none => rfl
        | some f =>
          exfalso
          exact (hnonone p hp (n, f) (mem_of_jsGet hj)) (hclean p hp f hj)
      constructor
      · intro gname gv hg
        rw [← hview] at hg
        exact hcleang (gname, gv) (mem_of_jsGet hg)
      · intro k mg gname gv h1 h2
        have hNo : NoKeyInv n m := by
          refine foldlM_groups_inv (NoKeyInv n) (fun p => ∀ q ∈ p.2.fields, q.1 ≠ n)
            (fun p acc r hR hP hf => ?_) vg [] m ?_ ?_ hmfold
          · exact foldlM_modalStep_inv (NoKeyInv n) (fun q => q.1 ≠ n) p.1 p.2
              (fun acc' e' r' hQ hP' hs' => modalStep_preserves_noKeyInv hQ hP' hs')
              p.2.fields acc r hR hP hf
          · intro p hp q hq hqn
            have hqpair : q = (n, q.2) := by
              cases q with
              | mk a b => simp only at hqn; rw [hqn]
            have hmemn : (n, q.2) ∈ p.2.fields := by rw [← hqpair]; exact hq
            exact (jsGet_ne_none_of_mem hmemn) (hcleang p hp)
          · intro k' mg' gname' gv' h1' _
            simp [jsGet] at h1'
        rw [← hview] at h1
        exact hNo k mg gname gv h1 h2

/-- Witness for C5 at the concrete state `c5St`, whose command `b` is in the
removal list: the resolved view contains group `g`, and `b` is absent from its
fields. -/
theorem c5_removed_never_visible_witness :
    getVisible c5Can c5St c5Req = .ok c5View ∧
    jsIncludes c5St.removes "b" = true ∧
    jsGet c5GroupView.fields "b" = none :=
  ⟨rfl, rfl,
    (c5_removed_never_visible c5Can c5St c5Req c5View "b" rfl rfl).1
      "g" c5GroupView rfl⟩
